import Mathlib

set_option maxRecDepth 8000
set_option maxHeartbeats 4000000

namespace PIgn

/-- Abstract syntax of the fragment of RE2 regular expressions used by this
repository: literal characters, the any-character dot, character classes with
optional negation and ranges, concatenation, alternation and Kleene star. -/
inductive Re where
  | emp : Re
  | eps : Re
  | ch : Char → Re
  | dot : Re
  | cls : Bool → List (Char × Char) → Re
  | cat : Re → Re → Re
  | alt : Re → Re → Re
  | star : Re → Re
deriving Repr, DecidableEq

/-- Whether a regular expression accepts the empty string. -/
def Re.nullable : Re → Bool
  | .emp => false
  | .eps => true
  | .ch _ => false
  | .dot => false
  | .cls _ _ => false
  | .cat a b => a.nullable && b.nullable
  | .alt a b => a.nullable || b.nullable
  | .star _ => true

/-- Smart concatenation constructor keeping derivatives small. -/
def mkCat : Re → Re → Re
  | .emp, _ => .emp
  | .eps, b => b
  | a, b =>
    match b with
    | .emp => .emp
    | .eps => a
    | b => .cat a b

/-- Smart alternation constructor keeping derivatives small. -/
def mkAlt : Re → Re → Re
  | .emp, b => b
  | a, b =>
    match b with
    | .emp => a
    | b => if a = b then a else .alt a b

/-- Membership of a character in a list of inclusive character ranges. -/
def clsMem (items : List (Char × Char)) (c : Char) : Bool :=
  items.any fun p => decide (p.1 ≤ c) && decide (c ≤ p.2)

/-- Brzozowski derivative of a regular expression by one character. -/
def Re.deriv : Re → Char → Re
  | .emp, _ => .emp
  | .eps, _ => .emp
  | .ch a, c => if a = c then .eps else .emp
  | .dot, c => if c = '\n' then .emp else .eps
  | .cls neg items, c =>
    if (if neg then !(clsMem items c) else clsMem items c) then .eps else .emp
  | .cat a b, c =>
    if a.nullable then mkAlt (mkCat (a.deriv c) b) (b.deriv c)
    else mkCat (a.deriv c) b
  | .alt a b, c => mkAlt (a.deriv c) (b.deriv c)
  | .star a, c => mkCat (a.deriv c) (.star a)

/-- Full-string matching of a character list by iterated derivatives. -/
def Re.matchList : Re → List Char → Bool
  | r, [] => r.nullable
  | r, c :: cs => (r.deriv c).matchList cs

/-- Parse the items of a character class up to the closing bracket. -/
def clsItems (fuel : Nat) (s : List Char) : Option (List (Char × Char) × List Char) :=
  match fuel, s with
  | _, ']' :: rest => some ([], rest)
  | 0, _ => none
  | _, [] => none
  | fuel + 1, '\\' :: c :: rest =>
    (clsItems fuel rest).map fun p => ((c, c) :: p.1, p.2)
  | fuel + 1, c :: '-' :: c2 :: rest =>
    if c2 = ']' then (clsItems fuel ('-' :: c2 :: rest)).map fun p => ((c, c) :: p.1, p.2)
    else (clsItems fuel rest).map fun p => ((c, c2) :: p.1, p.2)
  | fuel + 1, c :: rest =>
    (clsItems fuel rest).map fun p => ((c, c) :: p.1, p.2)

/-- Apply postfix star and plus operators to a parsed atom. -/
def pPost : Re → List Char → Re × List Char
  | r, '*' :: rest => pPost (.star r) rest
  | r, '+' :: rest => pPost (.cat r (.star r)) rest
  | r, s => (r, s)

mutual

/-- Parse an alternation of concatenations. -/
def pAlt (fuel : Nat) (s : List Char) : Option (Re × List Char) :=
  match fuel with
  | 0 => none
  | fuel + 1 => do
    let (r, s1) ← pCat fuel s
    pAltRest fuel r s1

/-- Parse the remaining branches of an alternation. -/
def pAltRest (fuel : Nat) (r : Re) (s : List Char) : Option (Re × List Char) :=
  match fuel with
  | 0 => none
  | fuel + 1 =>
    match s with
    | '|' :: rest => do
      let (r2, s2) ← pCat fuel rest
      pAltRest fuel (.alt r r2) s2
    | _ => some (r, s)

/-- Parse a possibly empty concatenation of repeated atoms. -/
def pCat (fuel : Nat) (s : List Char) : Option (Re × List Char) :=
  match fuel with
  | 0 => none
  | fuel + 1 =>
    match s with
    | [] => some (.eps, [])
    | '|' :: _ => some (.eps, s)
    | ')' :: _ => some (.eps, s)
    | _ => do
      let (a, s1) ← pAtom fuel s
      let (a, s1) := pPost a s1
      let (b, s2) ← pCat fuel s1
      some (.cat a b, s2)

/-- Parse one regular-expression atom. -/
def pAtom (fuel : Nat) (s : List Char) : Option (Re × List Char) :=
  match fuel with
  | 0 => none
  | fuel + 1 =>
    match s with
    | '(' :: '?' :: ':' :: rest => do
      let (r, s1) ← pAlt fuel rest
      match s1 with
      | ')' :: s2 => some (r, s2)
      | _ => none
    | '[' :: '^' :: rest =>
      (clsItems rest.length rest).map fun p => (.cls true p.1, p.2)
    | '[' :: rest =>
      (clsItems rest.length rest).map fun p => (.cls false p.1, p.2)
    | '\\' :: c :: rest => some (.ch c, rest)
    | '.' :: rest => some (.dot, rest)
    | ')' :: _ => none
    | '|' :: _ => none
    | '*' :: _ => none
    | '+' :: _ => none
    | '(' :: _ => none
    | c :: rest => some (.ch c, rest)
    | [] => none

end

/-- A compiled RE2 expression: optional start anchor, body, optional end anchor. -/
structure Re2 where
  sa : Bool
  body : Re
  ea : Bool
deriving Repr, DecidableEq

/-- Regular expression accepting any single character, used for the implicit
gaps of an unanchored search. -/
def anyChar : Re := .cls true []

/-- Compile a pattern string (as a character list) of the RE2 fragment used by
this repository, recognising a leading caret and a trailing unescaped dollar as
anchors. Models the external RE2 library's compiler on this fragment. -/
def reCompile (pat : List Char) : Option Re2 :=
  let p := match pat with
    | '^' :: rest => (true, rest)
    | _ => (false, pat)
  let sa := p.1
  let s := p.2
  let q :=
    if s.getLast? = some '$' && (decide (s.length = 1) || decide (s.get? (s.length - 2) ≠ some '\\')) then
      (true, s.take (s.length - 1))
    else (false, s)
  let ea := q.1
  let s := q.2
  match pAlt (2 * s.length + 4) s with
  | some (r, []) => some ⟨sa, r, ea⟩
  | _ => none

/-- Unanchored RE2 search over a character list, the semantics of the external
library's MatchString: some substring (constrained by the anchors) matches. -/
def Re2.matchCs (r : Re2) (s : List Char) : Bool :=
  let pre := if r.sa then Re.eps else Re.star anyChar
  let post := if r.ea then Re.eps else Re.star anyChar
  Re.matchList (.cat pre (.cat r.body post)) s

/-! Helpers mirroring the Go strings functions used by the gitignore parser. -/

/-- Go strings.TrimRight with a carriage-return cutset: drop trailing CRs. -/
def trimRightCR (l : List Char) : List Char :=
  (l.reverse.dropWhile (· = '\r')).reverse

/-- Go strings.Trim with a space cutset: drop leading and trailing spaces. -/
def trimSpace (l : List Char) : List Char :=
  ((l.dropWhile (· = ' ')).reverse.dropWhile (· = ' ')).reverse

/-- Go strings.ReplaceAll for a non-empty literal pattern: leftmost,
non-overlapping replacement. The fuel argument bounds the scan by the input
length. -/
def replaceAllGo (pat rep : List Char) : Nat → List Char → List Char
  | _, [] => []
  | 0, s => s
  | fuel + 1, c :: rest =>
    if pat ≠ [] ∧ pat.isPrefixOf (c :: rest) then
      rep ++ replaceAllGo pat rep fuel ((c :: rest).drop pat.length)
    else
      c :: replaceAllGo pat rep fuel rest

/-- Go strings.ReplaceAll on character lists. -/
def replaceAll (pat rep s : List Char) : List Char :=
  replaceAllGo pat rep s.length s

/-- The replacement performed by the Go regex gitQuestionMark: each leftmost,
non-overlapping occurrence of a question mark at the start of the string or
preceded by a non-backslash character becomes the class of non-separator
characters, keeping the preceding character. -/
def replaceQ : Bool → List Char → List Char
  | _, [] => []
  | atStart, [c] => if atStart ∧ c = '?' then ['[', '^', '/', ']'] else [c]
  | atStart, c :: d :: rest =>
    if atStart ∧ c = '?' then '[' :: '^' :: '/' :: ']' :: replaceQ false (d :: rest)
    else if d = '?' ∧ c ≠ '\\' then c :: '[' :: '^' :: '/' :: ']' :: replaceQ false rest
    else c :: replaceQ false (d :: rest)

/-- The Go regex gitDirFileEscape: a character other than a slash or plus,
followed by a slash, then anything, then an asterisk and a dot. -/
def gitDirFileEscapeRe : Re :=
  .cat (.cls true [('/', '/'), ('+', '+')])
    (.cat (.ch '/') (.cat (.star .dot) (.cat (.ch '*') (.ch '.'))))

/-- Unanchored search for a bare regular expression, the semantics of the Go
MatchString helpers applied to the parser's fixed internal regexes. -/
def reSearch (r : Re) (s : List Char) : Bool :=
  Re.matchList (.cat (.star anyChar) (.cat r (.star anyChar))) s

/-- The placeholder string used by the parser to protect handled asterisks. -/
def placeholder : List Char := ['#', '$', '~']

/-- Translation of one gitignore pattern line into an anchored RE2 pattern,
following Matcher.parse: carriage returns are stripped, comments beginning
with a hash are dropped, spaces are trimmed, a leading exclamation mark sets
negation, class negation and escapes are rewritten, double asterisks are
expanded by position and the expression is anchored according to the presence
of an internal or trailing slash. Returns none when no rule is produced,
otherwise the regex pattern together with the negation flag. -/
def parseLine (input : List Char) : Option (List Char × Bool) :=
  let l := trimRightCR input
  if l.head? = some '#' then none else
  let l := trimSpace l
  if l = [] then none else
  let hasfwSlashSuffix := l.getLast? = some '/'
  let hasFwSlash := (l.take (l.length - 1)).contains '/'
  let negate := l.head? = some '!'
  let l := if negate then l.tail else l
  let l := replaceAll ['[', '!'] ['[', '^'] l
  let l := if l.head? = some '#' ∨ l.head? = some '!' then l.tail else l
  let l := if reSearch gitDirFileEscapeRe l ∧ l.head? ≠ some '/' then '/' :: l else l
  let l := replaceAll ['.'] ['\\', '.'] l
  let l := if ['/', '*', '*', '/'].isPrefixOf l then l.tail else l
  let l := replaceQ true l
  let l := replaceAll "/**/".toList "(?:/|/.+/)".toList l
  let l := replaceAll "**/".toList ("(?:|.".toList ++ placeholder ++ "/)".toList) l
  let l := replaceAll "/**".toList ("/.".toList ++ placeholder) l
  let l := replaceAll ['\\', '*'] ('\\' :: placeholder) l
  let l := replaceAll ['*'] "[^/]*".toList l
  let l := replaceAll placeholder ['*'] l
  let expr := if hasfwSlashSuffix then l ++ "(?:|.*)$".toList else l ++ "(?:|/.*)$".toList
  let expr :=
    if hasFwSlash then
      "^(?:|/)".toList ++ (if l.head? = some '/' then expr.tail else expr)
    else
      "^(?:|.*/)".toList ++ expr
  some (expr, negate)

/-! Common match package: dialect tags, results and errors. -/

/-- The dialect tag of a matcher, mirroring match.Type. -/
inductive MType where
  | Unknown
  | GitIgnore
  | Glob
  | Regex
deriving Repr, DecidableEq

/-- A match result: the matched source string and the dialect tag, mirroring
the result values implementing match.MatchInfo. -/
structure MatchInfo where
  src : List Char
  type : MType
deriving Repr, DecidableEq

/-- Ok reports a positive match, encoded as a non-empty source. -/
def MatchInfo.Ok (r : MatchInfo) : Bool := !r.src.isEmpty

/-- The canonical no-match value, mirroring match.NoMatch. -/
def NoMatch : MatchInfo := ⟨[], .Unknown⟩

/-- Errors surfaced by the library: context cancellation, deadline expiry,
pattern compilation failure and configuration failure. -/
inductive GoErr where
  | canceled
  | deadlineExceeded
  | compileFail (pat : List Char)
  | configErr
deriving Repr, DecidableEq

/-- The observable state of a Go context at a sequential observation point:
none when live, or the error reported by its Err method. -/
abbrev Ctx := Option GoErr

/-! The RE2Set wrapper from match/re2set.go. -/

/-- Compile every pattern of a set, failing when any pattern is invalid,
mirroring the atomic compilation of the external CompileSet. -/
def compileSet : List (List Char) → Option (List (List Char × Re2))
  | [] => some []
  | p :: ps => do
    let r ← reCompile p
    let rest ← compileSet ps
    some ((p, r) :: rest)

/-- A compiled pattern set holding the source patterns and their compiled
forms, mirroring RE2Set. -/
structure RE2Set where
  pats : List (List Char × Re2)

/-- NewRE2Set fails on an empty pattern list or when compilation of the set
fails, mirroring match.NewRE2Set. -/
def NewRE2Set (patterns : List (List Char)) : Except GoErr RE2Set :=
  if patterns.isEmpty then .error .configErr
  else
    match compileSet patterns with
    | some prs => .ok ⟨prs⟩
    | none => .error (.compileFail [])

/-- The first pattern of the set, in declaration order, that matches the
input. Modelled from the external multi-pattern engine's contract that the
lowest-index matching pattern is reported. -/
def RE2Set.findFirst (path : List Char) : List (List Char × Re2) → Option (List Char)
  | [] => none
  | pr :: rest => if pr.2.matchCs path then some pr.1 else RE2Set.findFirst path rest

/-- Matches returns whether any pattern of the set matches and the source of
the reported pattern, mirroring RE2Set.Matches. -/
def RE2Set.Matches (s : RE2Set) (path : List Char) : Bool × List Char :=
  match RE2Set.findFirst path s.pats with
  | none => (false, [])
  | some src => (true, src)

/-! The gitignore matcher. -/

/-- A compiled gitignore rule: the compiled expression (present in sequential
construction only), the original source line and the translated regex
pattern, mirroring the gitignore rule struct. -/
structure GIRule where
  re : Option Re2
  src : List Char
  rePat : List Char

/-- MatchString of a rule's compiled expression. -/
def GIRule.matchString (r : GIRule) (path : List Char) : Bool :=
  match r.re with
  | some re => re.matchCs path
  | none => false

/-- The gitignore matcher: positive and negative rule groups and, in parallel
construction, their two pattern sets, mirroring the gitignore Matcher. -/
structure GIMatcher where
  posRules : List GIRule
  negRules : List GIRule
  posSet : Option RE2Set
  negSet : Option RE2Set

/-- The construction loop of the gitignore matcher: parse each line, skip
lines producing no rule, compile each rule in sequential mode and partition
into positive and negative groups preserving order. -/
def buildRules (parallel : Bool) : List (List Char) → Except GoErr (List GIRule × List GIRule)
  | [] => .ok ([], [])
  | p :: ps =>
    match parseLine p with
    | none => buildRules parallel ps
    | some pr =>
      let mkRule : Except GoErr GIRule :=
        if parallel then .ok ⟨none, p, pr.1⟩
        else
          match reCompile pr.1 with
          | some re => .ok ⟨some re, p, pr.1⟩
          | none => .error (.compileFail p)
      match mkRule with
      | .error e => .error e
      | .ok r =>
        match buildRules parallel ps with
        | .error e => .error e
        | .ok rest =>
          if pr.2 then .ok (rest.1, r :: rest.2) else .ok (r :: rest.1, rest.2)

/-- Construction of a gitignore matcher from pattern lines, sequential or
parallel, mirroring the gitignore newMatcher applied to an explicit pattern
list (the external-file source is out of the modelled scope). -/
def GitIgnore.newMatcher (patterns : List (List Char)) (parallel : Bool) : Except GoErr GIMatcher :=
  if patterns.isEmpty then .error .configErr
  else
    match buildRules parallel patterns with
    | .error e => .error e
    | .ok rules =>
      if parallel then
        match NewRE2Set (rules.1.map (·.rePat)) with
        | .error e => .error e
        | .ok posSet =>
          if !rules.2.isEmpty then
            match NewRE2Set (rules.2.map (·.rePat)) with
            | .error e => .error e
            | .ok negSet => .ok ⟨rules.1, rules.2, some posSet, some negSet⟩
          else .ok ⟨rules.1, rules.2, some posSet, none⟩
      else .ok ⟨rules.1, rules.2, none, none⟩

/-- The sequential scan of the positive rule group, checking the context
before each rule and stopping at the first matching rule's source. -/
def posLoop (ctx : Ctx) (path : List Char) : List GIRule → Except GoErr (List Char)
  | [] => .ok []
  | r :: rs =>
    match ctx with
    | some e => .error e
    | none => if r.matchString path then .ok r.src else posLoop ctx path rs

/-- The sequential scan of the negative rule group: a matching negative rule
clears the result, and a context error is returned alongside the current
positive result, mirroring the negative loop of gitignore Match2. -/
def negLoopSeq (ctx : Ctx) (path : List Char) (res : MatchInfo) : List GIRule → MatchInfo × Option GoErr
  | [] => (res, none)
  | r :: rs =>
    match ctx with
    | some e => (res, some e)
    | none => if r.matchString path then (⟨[], .GitIgnore⟩, none) else negLoopSeq ctx path res rs

/-- The OS path separator of the modelled build platform. -/
def pathSeparator : Char := '/'

/-- Evaluation of a gitignore matcher, mirroring gitignore Match2: normalize
separators, scan the positive group (set or rules), stop with no match if no
positive rule matched, otherwise consult the negative group (set or rules). -/
def GIMatcher.Match2 (gi : GIMatcher) (ctx : Ctx) (path0 : List Char) : MatchInfo × Option GoErr :=
  let path := replaceAll [pathSeparator] ['/'] path0
  let res0 : MatchInfo := ⟨[], .GitIgnore⟩
  let step1 : Except GoErr (List Char) :=
    match gi.posSet with
    | some set =>
      match ctx with
      | some e => .error e
      | none => .ok (set.Matches path).2
    | none => posLoop ctx path gi.posRules
  match step1 with
  | .error e => (res0, some e)
  | .ok matchPath =>
    if matchPath.isEmpty then (res0, none)
    else
      let res : MatchInfo := ⟨matchPath, .GitIgnore⟩
      match gi.negSet with
      | some nset =>
        (match ctx with
         | some e => (res, some e)
         | none =>
           let pr := nset.Matches path
           if pr.1 then (⟨pr.2, .GitIgnore⟩, none) else (res, none))
      | none => negLoopSeq ctx path res gi.negRules

/-! The regex matcher. -/

/-- The regex-metacharacters escaped by the Go regexp QuoteMeta. -/
def reSpecialChars : List Char :=
  ['\\', '.', '+', '*', '?', '(', ')', '|', '[', ']', '{', '}', '^', '$']

/-- Escape every regex metacharacter of a pattern, mirroring QuoteMeta. -/
def quoteMeta (s : List Char) : List Char :=
  s.flatMap fun c => if c ∈ reSpecialChars then ['\\', c] else [c]

/-- Quote every pattern, mirroring the regex quotePatterns helper. -/
def quotePatterns (patterns : List (List Char)) : List (List Char) :=
  patterns.map quoteMeta

/-- The regex matcher: independently compiled expressions in sequential mode
or one pattern set in parallel mode, mirroring the regex Matcher. -/
structure RegexMatcher where
  regexps : List Re2
  set : Option RE2Set

/-- Compile each pattern independently, failing with an error identifying the
offending pattern, mirroring the sequential compilation loop. -/
def compileEach : List (List Char) → Except GoErr (List Re2)
  | [] => .ok []
  | p :: ps =>
    match reCompile p with
    | none => .error (.compileFail p)
    | some re =>
      match compileEach ps with
      | .error e => .error e
      | .ok rest => .ok (re :: rest)

/-- Construction of a regex matcher, mirroring the regex NewMatcher: literal
mode escapes all patterns and joins them into one alternation, parallel mode
compiles a pattern set, and sequential mode compiles each pattern. -/
def Regex.NewMatcher (patterns : List (List Char)) (parallel literals : Bool) :
    Except GoErr RegexMatcher :=
  if patterns.isEmpty then .error .configErr
  else
    let patterns :=
      if literals then [List.intercalate ['|'] (quotePatterns patterns)] else patterns
    if parallel then
      match NewRE2Set patterns with
      | .error e => .error e
      | .ok set => .ok ⟨[], some set⟩
    else
      match compileEach patterns with
      | .error e => .error e
      | .ok regexps => .ok ⟨regexps, none⟩

/-- The sequential scan of the regex matcher: the context is checked before
each expression and a match records the input path as the source. -/
def seqLoopRegex (ctx : Ctx) (path : List Char) : List Re2 → MatchInfo × Option GoErr
  | [] => (⟨[], .Regex⟩, none)
  | re :: rs =>
    match ctx with
    | some e => (⟨[], .Regex⟩, some e)
    | none => if re.matchCs path then (⟨path, .Regex⟩, none) else seqLoopRegex ctx path rs

/-- Evaluation of a regex matcher, mirroring the regex Match2: in parallel
mode the set's reported pattern source is recorded, in sequential mode the
input path is recorded. -/
def RegexMatcher.Match2 (m : RegexMatcher) (ctx : Ctx) (path : List Char) :
    MatchInfo × Option GoErr :=
  match ctx with
  | some e => (⟨[], .Regex⟩, some e)
  | none =>
    match m.set with
    | some set =>
      let pr := set.Matches path
      (⟨if pr.1 then pr.2 else [], .Regex⟩, none)
    | none => seqLoopRegex ctx path m.regexps

/-! The glob matcher. The compiled globs and the glob compiler itself are the
external gobwas glob library, modelled as an abstract match function per
compiled glob and an abstract compiler function. -/

/-- A compiled glob, abstractly: its match function. -/
abbrev GlobFn := List Char → Bool

/-- A glob compile error identifying the offending pattern, mirroring the
glob CompileError. -/
structure GCompileError where
  path : List Char
deriving Repr, DecidableEq

/-- Glob construction options, mirroring the glob Options. -/
structure GlobOptions where
  Patterns : List (List Char)
  RawPatterns : List (List Char)

/-- The glob matcher: compiled globs and the execution-mode flag. -/
structure GlobMatcher where
  globs : List GlobFn
  parallel : Bool

/-- The lenient compilation loop: failures are collected as compile errors
naming the pattern and compilation continues, mirroring the loops of the glob
NewMatcher. The recorded error path is the loop's own input pattern. -/
def compileLoopLenient (compile : List Char → Option GlobFn) :
    List (List Char) → List GlobFn × List GCompileError
  | [] => ([], [])
  | p :: ps =>
    let rest := compileLoopLenient compile ps
    match compile p with
    | none => (rest.1, ⟨p⟩ :: rest.2)
    | some g => (g :: rest.1, rest.2)

/-- Lenient construction, mirroring the glob NewMatcher: all patterns and all
quoted raw patterns are compiled, errors are collected, and the matcher holds
exactly the globs that compiled. -/
def Glob.NewMatcher (compile : List Char → Option GlobFn)
    (quoteMetaGlob : List Char → List Char) (opts : GlobOptions) :
    GlobMatcher × List GCompileError :=
  let a := compileLoopLenient compile opts.Patterns
  let b := compileLoopLenient (fun p => compile (quoteMetaGlob p)) opts.RawPatterns
  (⟨a.1 ++ b.1, false⟩, a.2 ++ b.2)

/-- The strict compilation loop: the first failure aborts with a compile
error naming the pattern. -/
def compileLoopStrict (compile : List Char → Option GlobFn) :
    List (List Char) → Except GCompileError (List GlobFn)
  | [] => .ok []
  | p :: ps =>
    match compile p with
    | none => .error ⟨p⟩
    | some g =>
      match compileLoopStrict compile ps with
      | .error e => .error e
      | .ok gs => .ok (g :: gs)

/-- Strict construction, mirroring newStrictMatcher: fail fast on the first
pattern that does not compile, scanning Patterns then quoted RawPatterns. -/
def Glob.newStrictMatcher (compile : List Char → Option GlobFn)
    (quoteMetaGlob : List Char → List Char) (opts : GlobOptions) (llel : Bool) :
    Except GCompileError GlobMatcher :=
  match compileLoopStrict compile opts.Patterns with
  | .error e => .error e
  | .ok gs1 =>
    match compileLoopStrict (fun p => compile (quoteMetaGlob p)) opts.RawPatterns with
    | .error e => .error e
    | .ok gs2 => .ok ⟨gs1 ++ gs2, llel⟩

/-- The observable outcome of the concurrent per-pattern race of the glob
matcher: a task published the input path on the result channel, the
cancellation of the context won the select, or every task finished without
publishing and the closed channel yielded the empty string. -/
inductive RaceOutcome where
  | published
  | cancelledFirst
  | exhausted
deriving Repr, DecidableEq

/-- Which race outcomes are reachable: a publish needs a matching glob, the
cancellation branch needs the context to have been cancelled while the race
was in flight, and exhaustion needs every glob to fail or the tasks to have
observed the cancellation and returned early. -/
def raceValid (globs : List GlobFn) (path : List Char) (cancelledDuring : Bool) :
    RaceOutcome → Prop
  | .published => ∃ g ∈ globs, g path = true
  | .cancelledFirst => cancelledDuring = true
  | .exhausted => (∀ g ∈ globs, g path = false) ∨ cancelledDuring = true

/-- The concurrent race of the glob matcher, mirroring concurrentMatch: the
published value is the input path, and both the cancellation branch and the
exhaustion branch return the empty string with a nil error. -/
def concurrentMatch (path : List Char) : RaceOutcome → List Char × Option GoErr
  | .published => (path, none)
  | .cancelledFirst => ([], none)
  | .exhausted => ([], none)

/-- The sequential scan of the glob matcher: the context is checked before
each glob test and a match records the input path as the source. -/
def seqLoopGlob (ctx : Ctx) (path : List Char) : List GlobFn → MatchInfo × Option GoErr
  | [] => (⟨[], .Glob⟩, none)
  | g :: gs =>
    match ctx with
    | some e => (⟨[], .Glob⟩, some e)
    | none => if g path then (⟨path, .Glob⟩, none) else seqLoopGlob ctx path gs

/-- Evaluation of a glob matcher, mirroring the glob Match2: a context error
at entry returns the canonical no-match with that error; parallel mode runs
the concurrent race, sequential mode scans the globs in order. -/
def GlobMatcher.Match2 (m : GlobMatcher) (ctx : Ctx) (path : List Char)
    (outcome : RaceOutcome) : MatchInfo × Option GoErr :=
  match ctx with
  | some e => (NoMatch, some e)
  | none =>
    if m.parallel then
      let pr := concurrentMatch path outcome
      match pr.2 with
      | some e => (⟨[], .Glob⟩, some e)
      | none => (⟨pr.1, .Glob⟩, none)
    else seqLoopGlob ctx path m.globs

/-! The matcher combinator. -/

/-- A configured dialect matcher behind the shared interface: its dialect tag
and its evaluation function, mirroring match.PathMatcher. -/
structure PathMatcher where
  type : MType
  match2 : Ctx → List Char → MatchInfo × Option GoErr

/-- The combinator loop, mirroring PathIgnore.Match2: matchers are evaluated
strictly in order, an error aborts, the first positive result is returned,
and exhaustion returns the canonical no-match with no error. -/
def piLoop (ctx : Ctx) (path : List Char) : List PathMatcher → Except GoErr MatchInfo
  | [] => .ok NoMatch
  | m :: rest =>
    let pr := m.match2 ctx path
    match pr.2 with
    | some e => .error e
    | none => if pr.1.Ok then .ok pr.1 else piLoop ctx path rest

/-- Combinator options, mirroring the top-level Options: optional per-dialect
configurations, in declaration order regex, gitignore, glob, plus the shared
parallel flag. -/
structure PIOptions where
  Regex : Option (List (List Char) × Bool)
  GitIgnore : Option (List (List Char))
  Glob : Option GlobOptions
  Parallel : Bool

/-- Construction of the combinator, mirroring New: at least one dialect must
be configured, and the matcher list is built in the fixed declaration order
regex, gitignore, glob, each wrapped behind the shared interface. The race
outcome parameter resolves the nondeterminism of a parallel glob matcher. -/
def PathIgnore.New (compile : List Char → Option GlobFn)
    (quoteMetaGlob : List Char → List Char) (outcome : RaceOutcome)
    (opts : PIOptions) : Except GoErr (List PathMatcher) :=
  if opts.Regex.isNone ∧ opts.GitIgnore.isNone ∧ opts.Glob.isNone then .error .configErr
  else
    let step1 : Except GoErr (List PathMatcher) :=
      match opts.Regex with
      | none => .ok []
      | some ro =>
        match Regex.NewMatcher ro.1 opts.Parallel ro.2 with
        | .error e => .error e
        | .ok m => .ok [⟨.Regex, fun ctx path => m.Match2 ctx path⟩]
    match step1 with
    | .error e => .error e
    | .ok ms1 =>
      let step2 : Except GoErr (List PathMatcher) :=
        match opts.GitIgnore with
        | none => .ok []
        | some pats =>
          match GitIgnore.newMatcher pats opts.Parallel with
          | .error e => .error e
          | .ok m => .ok [⟨.GitIgnore, fun ctx path => m.Match2 ctx path⟩]
      match step2 with
      | .error e => .error e
      | .ok ms2 =>
        let step3 : Except GoErr (List PathMatcher) :=
          match opts.Glob with
          | none => .ok []
          | some gopts =>
            match Glob.newStrictMatcher compile quoteMetaGlob gopts opts.Parallel with
            | .error e => .error (.compileFail e.path)
            | .ok m => .ok [⟨.Glob, fun ctx path => m.Match2 ctx path outcome⟩]
        match step3 with
        | .error e => .error e
        | .ok ms3 => .ok (ms1 ++ ms2 ++ ms3)

/-- Evaluation of the combinator on its matcher list under the derived
deadline context, mirroring PathIgnore.Match2. -/
def PathIgnore.Match2 (matchers : List PathMatcher) (matchCtx : Ctx) (path : List Char) :
    Except GoErr MatchInfo :=
  piLoop matchCtx path matchers

/-! Test harnesses evaluating the embedded code on concrete inputs. -/

/-- Build a gitignore matcher from pattern strings and report whether the
path is matched, none when construction fails. -/
def giTest (pats : List String) (parallel : Bool) (path : String) : Option Bool :=
  match GitIgnore.newMatcher (pats.map String.toList) parallel with
  | .error _ => none
  | .ok gi => some ((gi.Match2 none path.toList).1.Ok)

/-- Build a gitignore matcher and report the matched source string. -/
def giTestSrc (pats : List String) (parallel : Bool) (path : String) : Option String :=
  match GitIgnore.newMatcher (pats.map String.toList) parallel with
  | .error _ => none
  | .ok gi => some (String.mk (gi.Match2 none path.toList).1.src)

/-- Build a pattern set and report the match flag and reported source. -/
def re2SetTest (pats : List String) (input : String) : Option (Bool × String) :=
  match NewRE2Set (pats.map String.toList) with
  | .error _ => none
  | .ok s => some ((s.Matches input.toList).1, String.mk (s.Matches input.toList).2)

/-- Build a regex matcher and report the match flag, source and error. -/
def regexTest (pats : List String) (parallel literals : Bool) (ctx : Ctx) (path : String) :
    Option (Bool × String × Option GoErr) :=
  match Regex.NewMatcher (pats.map String.toList) parallel literals with
  | .error _ => none
  | .ok m =>
    let pr := m.Match2 ctx path.toList
    some (pr.1.Ok, String.mk pr.1.src, pr.2)

/-- A concrete stand-in for the external glob compiler used by witnesses:
every pattern compiles, to the glob matching exactly the pattern text. -/
def litGlobCompile : List Char → Option GlobFn :=
  fun p => some (fun s => s = p)

/-- Build a strict glob matcher and report the match flag and error. -/
def globTest (compile : List Char → Option GlobFn) (pats raws : List String)
    (llel : Bool) (ctx : Ctx) (path : String) (outcome : RaceOutcome) :
    Option (Bool × Option GoErr) :=
  match Glob.newStrictMatcher compile id ⟨pats.map String.toList, raws.map String.toList⟩ llel with
  | .error _ => none
  | .ok m =>
    let pr := m.Match2 ctx path.toList outcome
    some (pr.1.Ok, pr.2)

/-- Build a combinator and report the match flag, dialect tag and source. -/
def piTest (compile : List Char → Option GlobFn) (outcome : RaceOutcome)
    (opts : PIOptions) (ctx : Ctx) (path : String) :
    Option (Bool × MType × String) :=
  match PathIgnore.New compile id outcome opts with
  | .error _ => none
  | .ok ms =>
    match PathIgnore.Match2 ms ctx path.toList with
    | .error _ => none
    | .ok info => some (info.Ok, info.type, String.mk info.src)

/-! Specification-side descriptions used to state the construction claims. -/

/-- The compile errors of a lenient compilation pass: one per failing
pattern, naming that pattern. -/
def failedOf (compile : List Char → Option GlobFn) (ps : List (List Char)) :
    List GCompileError :=
  (ps.filter fun p => (compile p).isNone).map fun p => ⟨p⟩

/-- The first pattern of a list, in order, that fails to compile. -/
def firstBad (compile : List Char → Option GlobFn) (ps : List (List Char)) :
    Option (List Char) :=
  ps.find? fun p => (compile p).isNone

/-! General helper lemmas. -/

/-- The first-match scan of a pattern set reports the pattern after any block
of non-matching patterns. -/
theorem findFirst_append_first (path : List Char) (pre : List (List Char × Re2))
    (p : List Char × Re2) (post : List (List Char × Re2))
    (hpre : ∀ q ∈ pre, q.2.matchCs path = false) (hp : p.2.matchCs path = true) :
    RE2Set.findFirst path (pre ++ p :: post) = some p.1 := by
  induction pre with
  | nil => simp [RE2Set.findFirst, hp]
  | cons q qs ih =>
    have hq := hpre q (by simp)
    simp only [List.cons_append, RE2Set.findFirst, hq, if_false, Bool.false_eq_true]
    exact ih fun r hr => hpre r (by simp [hr])

/-- The sequential regex scan always reports the regex dialect tag. -/
theorem seqLoopRegex_type (ctx : Ctx) (path : List Char) (rs : List Re2) :
    (seqLoopRegex ctx path rs).1.type = .Regex := by
  induction rs with
  | nil => rfl
  | cons re rs ih =>
    cases ctx with
    | some e => rfl
    | none =>
      simp only [seqLoopRegex]
      split <;> simp [ih]

/-- The lenient glob compilation loop keeps exactly the successfully compiled
globs and collects one error naming each failing pattern. -/
theorem compileLoopLenient_spec (compile : List Char → Option GlobFn)
    (ps : List (List Char)) :
    compileLoopLenient compile ps = (ps.filterMap compile, failedOf compile ps) := by
  induction ps with
  | nil => rfl
  | cons p ps ih =>
    cases h : compile p with
    | none =>
      simp [compileLoopLenient, ih, failedOf, h, List.filterMap_cons, List.filter_cons]
    | some g =>
      simp [compileLoopLenient, ih, failedOf, h, List.filterMap_cons, List.filter_cons]

/-- The strict glob compilation loop fails with the first failing pattern and
otherwise returns all compiled globs. -/
theorem compileLoopStrict_spec (compile : List Char → Option GlobFn)
    (ps : List (List Char)) :
    compileLoopStrict compile ps =
      match firstBad compile ps with
      | some p => .error ⟨p⟩
      | none => .ok (ps.filterMap compile) := by
  induction ps with
  | nil => rfl
  | cons p ps ih =>
    cases h : compile p with
    | none =>
      simp [compileLoopStrict, h, firstBad, List.find?_cons_of_pos, Option.isNone]
    | some g =>
      have hneg : ((compile p).isNone = true) = False := by simp [h]
      simp only [compileLoopStrict, h, ih, firstBad]
      rw [List.find?_cons_of_neg _ (by simp [h])]
      cases hf : List.find? (fun p => (compile p).isNone) ps <;>
        simp [hf, List.filterMap_cons, h]

/-! Theorems settling the claims. -/

/-- C1: gitignore negation precedence. In sequential construction the code
honours the claim on the spec's own example: with patterns src/dir-star and
negated src/dir-2, path src/dir-1 is ignored while src/dir-2 and
src/dir-2/test.txt are not. In parallel construction the negative-set branch
of Match2 assigns the matched negative pattern to the result source instead
of clearing it, so the same paths are reported as ignored: the code diverges
from the claim. -/
theorem gitignore_negation_parallel_divergence :
    giTest ["src/dir-*", "!src/dir-2"] false "src/dir-1" = some true ∧
    giTest ["src/dir-*", "!src/dir-2"] false "src/dir-2" = some false ∧
    giTest ["src/dir-*", "!src/dir-2"] false "src/dir-2/test.txt" = some false ∧
    giTest ["src/dir-*", "!src/dir-2"] true "src/dir-1" = some true ∧
    giTest ["src/dir-*", "!src/dir-2"] true "src/dir-2" = some true ∧
    giTest ["src/dir-*", "!src/dir-2"] true "src/dir-2/test.txt" = some true :=
  ⟨rfl, rfl, rfl, rfl, rfl, rfl⟩

/-- C2: the pattern set reports the lowest-index matching pattern: after any
block of non-matching patterns, Matches reports the first matching pattern's
source, and on the spec's example with patterns a-dot-star and ab-dot-star
the input abc reports the index-0 pattern. -/
theorem re2set_lowest_index_priority :
    (∀ (path : List Char) (pre : List (List Char × Re2)) (p : List Char × Re2)
        (post : List (List Char × Re2)),
      (∀ q ∈ pre, q.2.matchCs path = false) → p.2.matchCs path = true →
      RE2Set.Matches ⟨pre ++ p :: post⟩ path = (true, p.1)) ∧
    re2SetTest ["a.*", "ab.*"] "abc" = some (true, "a.*") := by
  refine ⟨?_, rfl⟩
  intro path pre p post hpre hp
  simp [RE2Set.Matches, findFirst_append_first path pre p post hpre hp]

/-- C2 witness: the general part applied to a concrete set whose first
pattern does not match and whose second does. -/
theorem re2set_lowest_index_priority_w :
    RE2Set.Matches ⟨[(['b'], ⟨false, .ch 'b', false⟩), (['a'], ⟨false, .ch 'a', false⟩)]⟩
      ['a'] = (true, ['a']) :=
  re2set_lowest_index_priority.1 ['a'] [(['b'], ⟨false, .ch 'b', false⟩)]
    (['a'], ⟨false, .ch 'a', false⟩) [] (by decide) (by decide)

/-- C3: glob cancellation. A context already expired at entry is reported as
an error, but when the cancellation of the context wins the concurrent race,
the parallel glob matcher returns the canonical no-match with a nil error,
even though its only glob matches the path: the code returns a false
no-match where the claim requires a cancellation error. -/
theorem glob_cancellation_race_divergence :
    globTest litGlobCompile ["x"] [] true (some .canceled) "x" .published =
      some (false, some .canceled) ∧
    globTest litGlobCompile ["x"] [] true none "x" .cancelledFirst = some (false, none) ∧
    raceValid [fun s => s == "x".toList] "x".toList true .cancelledFirst ∧
    ("x".toList == "x".toList) = true :=
  ⟨rfl, rfl, rfl, rfl⟩

/-- C4: the combinator evaluates its matchers strictly in order, returns the
first positive result unchanged, returns the canonical no-match with no
error when every matcher exhausts, and on a configuration where both the
regex and the glob matcher match the path the reported dialect tag is the
first-declared dialect, regex. -/
theorem combinator_first_match_precedence :
    (∀ (ctx : Ctx) (path : List Char) (pre : List PathMatcher) (m : PathMatcher)
        (post : List PathMatcher),
      (∀ x ∈ pre, (x.match2 ctx path).2 = none ∧ (x.match2 ctx path).1.Ok = false) →
      (m.match2 ctx path).2 = none → (m.match2 ctx path).1.Ok = true →
      piLoop ctx path (pre ++ m :: post) = .ok (m.match2 ctx path).1) ∧
    (∀ (ctx : Ctx) (path : List Char) (ms : List PathMatcher),
      (∀ x ∈ ms, (x.match2 ctx path).2 = none ∧ (x.match2 ctx path).1.Ok = false) →
      piLoop ctx path ms = .ok NoMatch) ∧
    piTest litGlobCompile .published
      ⟨some (["x".toList], false), none, some ⟨["x".toList], []⟩, false⟩ none "x" =
      some (true, .Regex, "x") := by
  refine ⟨?_, ?_, rfl⟩
  · intro ctx path pre m post hpre hm hok
    induction pre with
    | nil => simp [piLoop, hm, hok]
    | cons x xs ih =>
      have hx := hpre x (by simp)
      simp only [List.cons_append, piLoop, hx.1, hx.2, Bool.false_eq_true, if_false]
      exact ih fun r hr => hpre r (by simp [hr])
  · intro ctx path ms hms
    induction ms with
    | nil => rfl
    | cons x xs ih =>
      have hx := hms x (by simp)
      simp only [piLoop, hx.1, hx.2, Bool.false_eq_true, if_false]
      exact ih fun r hr => hms r (by simp [hr])

/-- C4 witness: the general parts applied to concrete matcher lists. -/
theorem combinator_first_match_precedence_w :
    piLoop none ['x']
      ([⟨.GitIgnore, fun _ _ => (⟨[], .GitIgnore⟩, none)⟩] ++
        ⟨.Regex, fun _ p => (⟨p, .Regex⟩, none)⟩ :: []) = .ok ⟨['x'], .Regex⟩ ∧
    piLoop none ['x'] [⟨.Glob, fun _ _ => (⟨[], .Glob⟩, none)⟩] = .ok NoMatch :=
  ⟨combinator_first_match_precedence.1 none ['x']
      [⟨.GitIgnore, fun _ _ => (⟨[], .GitIgnore⟩, none)⟩]
      ⟨.Regex, fun _ p => (⟨p, .Regex⟩, none)⟩ []
      (fun x hx => by cases List.mem_singleton.mp hx; exact ⟨rfl, rfl⟩) rfl rfl,
   combinator_first_match_precedence.2.1 none ['x']
      [⟨.Glob, fun _ _ => (⟨[], .Glob⟩, none)⟩]
      (fun x hx => by cases List.mem_singleton.mp hx; exact ⟨rfl, rfl⟩)⟩

/-- C5 counterexample: in parallel construction the regex matcher's reported
source is the matched pattern, not the input path: with pattern foo and path
foox the result source is foo, which differs from the path. -/
theorem regex_parallel_src_not_path :
    regexTest ["foo"] true false none "foox" = some (true, "foo", none) ∧
    ("foo" : String) ≠ "foox" :=
  ⟨rfl, by decide⟩

/-- C5 amended: in sequential construction a positive regex match reports the
input path as its source; in parallel construction it reports the source of
the lowest-index matching set pattern; and the dialect tag is always regex. -/
theorem regex_src_amended :
    (∀ (rs : List Re2) (ctx : Ctx) (path : List Char),
      ((RegexMatcher.mk rs none).Match2 ctx path).1.Ok = true →
      ((RegexMatcher.mk rs none).Match2 ctx path).1.src = path) ∧
    (∀ (s : RE2Set) (path : List Char) (pre : List (List Char × Re2))
        (p : List Char × Re2) (post : List (List Char × Re2)),
      s.pats = pre ++ p :: post → (∀ q ∈ pre, q.2.matchCs path = false) →
      p.2.matchCs path = true →
      ((RegexMatcher.mk [] (some s)).Match2 none path).1.src = p.1) ∧
    (∀ (m : RegexMatcher) (ctx : Ctx) (path : List Char),
      (m.Match2 ctx path).1.type = .Regex) := by
  refine ⟨?_, ?_, ?_⟩
  · intro rs ctx path hok
    cases ctx with
    | some e => simp [RegexMatcher.Match2, MatchInfo.Ok] at hok
    | none =>
      simp only [RegexMatcher.Match2] at hok ⊢
      induction rs with
      | nil => simp [seqLoopRegex, MatchInfo.Ok] at hok
      | cons re rs ih =>
        simp only [seqLoopRegex] at hok ⊢
        split at hok
        · simp_all [seqLoopRegex]
        · simp_all [seqLoopRegex]
  · intro s path pre p post hs hpre hp
    simp [RegexMatcher.Match2, RE2Set.Matches, hs,
      findFirst_append_first path pre p post hpre hp]
  · intro m ctx path
    cases ctx with
    | some e => rfl
    | none =>
      cases hset : m.set with
      | some set => simp [RegexMatcher.Match2, hset]
      | none => simp [RegexMatcher.Match2, hset, seqLoopRegex_type]

/-- C5 witness: both general parts applied to concrete matchers. -/
theorem regex_src_amended_w :
    ((RegexMatcher.mk [⟨false, .ch 'a', false⟩] none).Match2 none ['a']).1.src = ['a'] ∧
    ((RegexMatcher.mk [] (some ⟨[(['a'], ⟨false, .ch 'a', false⟩)]⟩)).Match2
        none ['a']).1.src = ['a'] ∧
    ((RegexMatcher.mk [] (some ⟨[]⟩)).Match2 none ['a']).1.type = .Regex :=
  ⟨regex_src_amended.1 [⟨false, .ch 'a', false⟩] none ['a'] (by decide),
   regex_src_amended.2.1 ⟨[(['a'], ⟨false, .ch 'a', false⟩)]⟩ ['a'] []
     (['a'], ⟨false, .ch 'a', false⟩) [] rfl (by simp) (by decide),
   regex_src_amended.2.2 (RegexMatcher.mk [] (some ⟨[]⟩)) none ['a']⟩

/-- C6: gitignore anchoring. The pattern line with a leading slash before
TODO matches only the root-level TODO, while the bare TODO line matches at
every depth. -/
theorem gitignore_anchoring_todo :
    giTest ["/TODO"] false "TODO" = some true ∧
    giTest ["/TODO"] false "src/TODO" = some false ∧
    giTest ["TODO"] false "TODO" = some true ∧
    giTest ["TODO"] false "src/TODO" = some true ∧
    giTest ["TODO"] false "a/b/TODO" = some true :=
  ⟨rfl, rfl, rfl, rfl, rfl⟩

/-- C7: gitignore double-star semantics on the pattern a-doublestar-b: the
paths a/b, a/x/b and a/x/y/b match, while b and x/a/b do not. -/
theorem gitignore_double_star_matrix :
    giTest ["a/**/b"] false "a/b" = some true ∧
    giTest ["a/**/b"] false "a/x/b" = some true ∧
    giTest ["a/**/b"] false "a/x/y/b" = some true ∧
    giTest ["a/**/b"] false "b" = some false ∧
    giTest ["a/**/b"] false "x/a/b" = some false :=
  ⟨rfl, rfl, rfl, rfl, rfl⟩

/-- C8 counterexample: a line of spaces followed by a hash and text does
produce a rule, because the comment check runs before space trimming; the
produced rule even matches the text after the hash. -/
theorem gitignore_space_comment_produces_rule :
    (parseLine " #foo".toList).isSome = true ∧
    giTest [" #foo"] false "foo" = some true :=
  ⟨rfl, rfl⟩

/-- C8 amended: comment detection precedes space trimming. A line whose
first character after carriage-return stripping is a hash produces no rule;
a line that trims to empty produces no rule; a line of spaces followed by a
hash and text does produce a rule; an escaped hash is a literal character and
the line produces a rule matching a literal hash. -/
theorem gitignore_comment_handling_amended :
    (∀ l : List Char, (trimRightCR l).head? = some '#' → parseLine l = none) ∧
    (∀ l : List Char, trimSpace (trimRightCR l) = [] → parseLine l = none) ∧
    (parseLine " #foo".toList).isSome = true ∧
    (parseLine "\\#foo".toList).isSome = true ∧
    giTest ["\\#foo"] false "#foo" = some true ∧
    giTest ["\\#foo"] false "foo" = some false := by
  refine ⟨?_, ?_, rfl, rfl, rfl, rfl⟩
  · intro l h
    simp [parseLine, h]
  · intro l h
    by_cases hc : (trimRightCR l).head? = some '#'
    · simp [parseLine, hc]
    · simp [parseLine, hc, h]

/-- C8 witness: the general parts applied to concrete lines. -/
theorem gitignore_comment_handling_amended_w :
    parseLine "#hi".toList = none ∧ parseLine "  ".toList = none :=
  ⟨gitignore_comment_handling_amended.1 "#hi".toList (by decide),
   gitignore_comment_handling_amended.2.1 "  ".toList (by decide)⟩

/-- C9: glob construction modes. Lenient construction returns the matcher
holding exactly the globs that compiled, in order, together with one compile
error naming each failing pattern; strict construction fails fast with the
first failing pattern, scanning the glob patterns and then the quoted raw
patterns, and succeeds with all globs compiled when every pattern is valid. -/
theorem glob_construction_modes :
    (∀ (compile : List Char → Option GlobFn) (quote : List Char → List Char)
        (opts : GlobOptions),
      Glob.NewMatcher compile quote opts =
        (⟨opts.Patterns.filterMap compile ++
            opts.RawPatterns.filterMap (fun p => compile (quote p)), false⟩,
          failedOf compile opts.Patterns ++
            failedOf (fun p => compile (quote p)) opts.RawPatterns)) ∧
    (∀ (compile : List Char → Option GlobFn) (quote : List Char → List Char)
        (opts : GlobOptions) (llel : Bool),
      Glob.newStrictMatcher compile quote opts llel =
        match firstBad compile opts.Patterns with
        | some p => .error ⟨p⟩
        | none =>
          match firstBad (fun p => compile (quote p)) opts.RawPatterns with
          | some p => .error ⟨p⟩
          | none =>
            .ok ⟨opts.Patterns.filterMap compile ++
              opts.RawPatterns.filterMap (fun p => compile (quote p)), llel⟩) := by
  constructor
  · intro compile quote opts
    simp [Glob.NewMatcher, compileLoopLenient_spec]
  · intro compile quote opts llel
    simp only [Glob.newStrictMatcher, compileLoopStrict_spec]
    cases h1 : firstBad compile opts.Patterns with
    | some p => simp
    | none =>
      cases h2 : firstBad (fun p => compile (quote p)) opts.RawPatterns with
      | some p => simp
      | none => simp

/-- C10: the empty path is never reported as ignored. A sequential regex
matcher and a glob matcher in either mode encode a positive match as the
non-empty input path, so the empty path always yields no match, even though
a pattern such as x-star matches the empty string. -/
theorem empty_path_never_matches :
    (∀ (rs : List Re2) (ctx : Ctx),
      ((RegexMatcher.mk rs none).Match2 ctx []).1.Ok = false) ∧
    (∀ (globs : List GlobFn) (llel : Bool) (ctx : Ctx) (outcome : RaceOutcome),
      ((GlobMatcher.mk globs llel).Match2 ctx [] outcome).1.Ok = false) ∧
    ((reCompile "x*".toList).map fun r => r.matchCs []) = some true ∧
    regexTest ["x*"] false false none "" = some (false, "", none) := by
  refine ⟨?_, ?_, rfl, rfl⟩
  · intro rs ctx
    cases ctx with
    | some e => rfl
    | none =>
      simp only [RegexMatcher.Match2]
      induction rs with
      | nil => rfl
      | cons re rs ih =>
        simp only [seqLoopRegex]
        split <;> simp_all [MatchInfo.Ok]
  · intro globs llel ctx outcome
    cases ctx with
    | some e => rfl
    | none =>
      simp only [GlobMatcher.Match2]
      cases llel with
      | true =>
        cases outcome <;> rfl
      | false =>
        simp only [Bool.false_eq_true, if_false]
        induction globs with
        | nil => rfl
        | cons g gs ih =>
          simp only [seqLoopGlob]
          split <;> simp_all [MatchInfo.Ok]

end PIgn
